import Mathlib

/-!
Verification development for the Fabric 0.0.9 multi-host orchestrator
(src/fabric.py).  The definitions below are a shallow embedding of the
relevant parts of the source: the layered environment (ENV dicts and
HostConnection.get_env), the recursive string substituter _lazy_format
(including the eager Python percent-formatting pass it performs), the
failure engine _fail, the per-invocation guard _try_run_operation, the
rolling and fanout strategies, the interactive-password part of
HostConnection.connect, and the host-string parsing in _connect.
-/

deriving instance DecidableEq for Except

namespace Fabric

/-- Python values as they occur in the Fabric ENV dict: strings, ints,
booleans and None.  Other value kinds (lists, functions) never reach the
code paths modelled here. -/
inductive PyVal where
  | str (s : String)
  | int (n : Nat)
  | bool (b : Bool)
  | none
deriving DecidableEq, Repr

/-- Python str() on the values above, as applied by the line
env = dict([(k, str(v)) for k, v in env.items()]) in _lazy_format. -/
def pyStr : PyVal → String
  | .str s => s
  | .int n => toString n
  | .bool b => if b then "True" else "False"
  | .none => "None"

/-- Python truthiness for the values above, as used by tests such as
if env['fab_password']: in HostConnection.connect. -/
def truthy : PyVal → Bool
  | .str s => s ≠ ""
  | .int n => n ≠ 0
  | .bool b => b
  | .none => false

/-- A Python dict, observed through lookup only.  dict assignment and
dict.update are modelled by prepending bindings: the first binding for a
key is the current one. -/
abbrev Env := List (String × PyVal)

/-- A dict whose values have been passed through str(), the local form
that _lazy_format works with. -/
abbrev SEnv := List (String × String)

/-- The stringification at the top of _lazy_format:
env = dict([(k, str(v)) for k, v in env.items()]). -/
def stringify (env : Env) : SEnv := env.map (fun kv => (kv.1, pyStr kv.2))

/-- Scanner state for the Python percent-formatting operator:
before a percent sign, just after one, inside a %(key) mapping key, and
just after the closing parenthesis of a key. -/
inductive PctSt where
  | norm
  | pct
  | key (acc : List Char)
  | conv (name : List Char)
deriving DecidableEq, Repr

/-- The Python expression string % env for a string-valued dict env, as
used on lines 959 and 962 of fabric.py.  Modelled subset: literal text,
the %% escape and %(name)s mapping references; a missing key (KeyError),
an incomplete format at end of string, a conversion other than s, and a
bare specifier not using a %(name) mapping key (which Fabric never
produces) are all modelled as the error outcome, since each makes the
surrounding Fabric call die with an uncaught exception. -/
def pyFmtCore (env : SEnv) : PctSt → List Char → Except Unit (List Char)
  | .norm, [] => .ok []
  | .norm, c :: cs =>
    if c = '%' then pyFmtCore env .pct cs
    else (c :: ·) <$> pyFmtCore env .norm cs
  | .pct, [] => .error ()
  | .pct, c :: cs =>
    if c = '%' then ('%' :: ·) <$> pyFmtCore env .norm cs
    else if c = '(' then pyFmtCore env (.key []) cs
    else .error ()
  | .key _, [] => .error ()
  | .key acc, c :: cs =>
    if c = ')' then pyFmtCore env (.conv acc.reverse) cs
    else pyFmtCore env (.key (c :: acc)) cs
  | .conv _, [] => .error ()
  | .conv name, c :: cs =>
    if c = 's' then
      match List.lookup (String.mk name) env with
      | some v => (v.toList ++ ·) <$> pyFmtCore env .norm cs
      | Option.none => .error ()
    else .error ()

/-- Python percent-formatting of a whole string against a stringified
environment. -/
def pyFormat (s : String) (env : SEnv) : Except Unit String :=
  Except.map String.mk (pyFmtCore env .norm s.toList)

/-- Word characters, as matched by the \w class in the compiled pattern
_LAZY_FORMAT_SUBSTITUTER. -/
def isWordChar (c : Char) : Bool := c.isAlphanum || c = '_'

/-- Scanner state for the lazy substituter regex: outside any candidate
match, just after a dollar sign, and inside the parentheses with the
word characters read so far (in reverse). -/
inductive LzSt where
  | norm
  | dollar
  | paren (acc : List Char)
deriving DecidableEq, Repr

/-- Map a pure list transformation over a substitution outcome, where
the outer Option models nontermination of the recursive substitution and
the inner Except models a Python exception escaping it. -/
def omap (f : List Char → List Char) :
    Option (Except Unit (List Char)) → Option (Except Unit (List Char)) :=
  Option.map (Except.map f)

/-- One full re.sub pass of _LAZY_FORMAT_SUBSTITUTER over a character
list, §951-962 of fabric.py.  Each match of a token whose name is bound
in env is replaced by recur applied to the eagerly percent-formatted
binding (the replacer_fn closure returns
_lazy_format(env[var] % env, env)); a match over an unbound name is put
back verbatim (replacer_fn returns match.group(0)).  Failed candidate
matches are emitted verbatim and scanning resumes exactly where the
regex engine would restart. -/
def lfScan (recur : String → Option (Except Unit String)) (env : SEnv) :
    LzSt → List Char → Option (Except Unit (List Char))
  | .norm, [] => some (.ok [])
  | .norm, c :: cs =>
    if c = '$' then lfScan recur env .dollar cs
    else omap (c :: ·) (lfScan recur env .norm cs)
  | .dollar, [] => some (.ok ['$'])
  | .dollar, c :: cs =>
    if c = '(' then lfScan recur env (.paren []) cs
    else if c = '$' then omap ('$' :: ·) (lfScan recur env .dollar cs)
    else omap (fun r => '$' :: c :: r) (lfScan recur env .norm cs)
  | .paren acc, [] => some (.ok ('$' :: '(' :: acc.reverse))
  | .paren acc, c :: cs =>
    if isWordChar c then lfScan recur env (.paren (c :: acc)) cs
    else if c = ')' ∧ acc ≠ [] then
      match List.lookup (String.mk acc.reverse) env with
      | some v =>
        match pyFmtCore env .norm v.toList with
        | .error e => some (.error e)
        | .ok v' =>
          match recur (String.mk v') with
          | Option.none => Option.none
          | some (.error e) => some (.error e)
          | some (.ok r) => omap (r.toList ++ ·) (lfScan recur env .norm cs)
      | Option.none =>
        omap (fun r => '$' :: '(' :: (acc.reverse ++ ')' :: r))
          (lfScan recur env .norm cs)
    else if c = '$' then
      omap (fun r => '$' :: '(' :: (acc.reverse ++ r)) (lfScan recur env .dollar cs)
    else
      omap (fun r => '$' :: '(' :: (acc.reverse ++ c :: r)) (lfScan recur env .norm cs)

/-- The recursive substituter _lazy_format on a stringified environment.
The fuel argument bounds the recursion depth of replacer_fn; the source
has no cycle guard, so a self-referential variable recurses forever,
which the embedding reports as the Option.none outcome. -/
def lazyFmtS : Nat → String → SEnv → Option (Except Unit String)
  | 0, _, _ => Option.none
  | fuel + 1, s, env =>
    match pyFmtCore env .norm s.toList with
    | .error e => some (.error e)
    | .ok cs =>
      Option.map (Except.map String.mk)
        (lfScan (fun v => lazyFmtS fuel v env) env .norm cs)

/-- The function _lazy_format(string, env) of fabric.py for a string
argument.  The string-is-None passthrough at line 953 concerns only the
optional-argument convention of callers and is not modelled. -/
def lazyFormat (fuel : Nat) (s : String) (env : Env) : Option (Except Unit String) :=
  lazyFmtS fuel s (stringify env)

/-- Whether the substituter pattern still matches somewhere in the
remaining input from the given scanner state: true exactly when the
regex would find a token made of a dollar sign, an opening parenthesis,
one or more word characters and a closing parenthesis.  re.sub leaves a
string unchanged exactly when this is false from the initial state. -/
def hasLazyToken : LzSt → List Char → Bool
  | _, [] => false
  | .norm, c :: cs =>
    if c = '$' then hasLazyToken .dollar cs else hasLazyToken .norm cs
  | .dollar, c :: cs =>
    if c = '(' then hasLazyToken (.paren []) cs
    else if c = '$' then hasLazyToken .dollar cs
    else hasLazyToken .norm cs
  | .paren acc, c :: cs =>
    if isWordChar c then hasLazyToken (.paren (c :: acc)) cs
    else if c = ')' ∧ acc ≠ [] then true
    else if c = '$' then hasLazyToken .dollar cs
    else hasLazyToken .norm cs

/-- The characters a partial candidate match of the scanner has
consumed so far. -/
def pending : LzSt → List Char
  | .norm => []
  | .dollar => ['$']
  | .paren acc => '$' :: '(' :: acc.reverse

/-- The initial contents of the module-level ENV dict, lines 53-67 of
fabric.py.  The fab_user entry comes from the system password database
and fab_timestamp from the wall clock, so both are parameters. -/
def initialENV (user timestamp : String) : Env :=
  [ ("fab_version", .str "0.0.9"),
    ("fab_author", .str "Christian Vest Hansen"),
    ("fab_mode", .str "rolling"),
    ("fab_port", .int 22),
    ("fab_user", .str user),
    ("fab_password", .none),
    ("fab_pkey", .none),
    ("fab_key_filename", .none),
    ("fab_new_host_key", .str "accept"),
    ("fab_shell", .str "/bin/bash -l -c \"%s\""),
    ("fab_timestamp", .str timestamp),
    ("fab_print_real_sudo", .bool false),
    ("fab_fail", .str "abort") ]

/-- Splitting a character list at newline characters, keeping empty
pieces. -/
def splitNl : List Char → List (List Char)
  | [] => [[]]
  | c :: cs =>
    if c = '\n' then [] :: splitNl cs
    else
      match splitNl cs with
      | [] => [[c]]
      | l :: ls => (c :: l) :: ls

/-- Python str.splitlines restricted to newline separators, as consumed
by _indent: no trailing empty line, and the empty string has no
lines. -/
def pySplitlines (s : String) : List String :=
  let parts := (splitNl s.data).map String.mk
  if s.data.getLast? = some '\n' then parts.dropLast
  else if s.data = [] then []
  else parts

/-- Newline-joining of lines, as the join in _indent. -/
def joinNl : List String → String
  | [] => ""
  | [x] => x
  | x :: xs => x ++ "\n" ++ joinNl xs

/-- The helper _indent, line 853: prefix every line with four
spaces. -/
def indentText (s : String) : String :=
  joinNl ((pySplitlines s).map (fun l => "    " ++ l))

/-- The three failure policies of the codes table in _fail. -/
inductive Policy where
  | ignore
  | warn
  | abort
deriving DecidableEq, Repr

/-- Lookup in the codes dict of _fail keyed by a policy-name string;
an unknown name is a KeyError, reported as Option.none. -/
def policyOfStr (s : String) : Option Policy :=
  if s = "ignore" then some .ignore
  else if s = "warn" then some .warn
  else if s = "abort" then some .abort
  else Option.none

/-- Lookup in the codes dict keyed by an arbitrary env value; only the
three policy-name strings are keys of the table. -/
def policyOfVal : PyVal → Option Policy
  | .str s => policyOfStr s
  | _ => Option.none

/-- The (code, message-prefix) pairs of the codes table in _fail. -/
def failCodes : Policy → Nat × String
  | .ignore => (1, "")
  | .warn => (2, "Warning: ")
  | .abort => (3, "Error: ")

/-- Policy resolution inside _fail, lines 1014-1021: the entry for
env['fab_fail'] is read first (a missing or non-policy value is a
KeyError even when a per-call override is present), then a 'fail'
keyword argument, when present, replaces it. -/
def resolvePolicy (kw : Option String) (env : Env) : Option Policy :=
  match List.lookup "fab_fail" env with
  | Option.none => Option.none
  | some fv =>
    match policyOfVal fv with
    | Option.none => Option.none
    | some p =>
      match kw with
      | Option.none => some p
      | some ks => policyOfStr ks

/-- Observable outcome of one _fail call: nothing for ignore, a printed
message for warn, and a printed message plus a process exit for
abort. -/
inductive FailOut where
  | silent
  | warned (msg : String)
  | aborted (msg : String) (code : Nat)
deriving DecidableEq, Repr

/-- The failure engine _fail(kwargs, msg, env), lines 1012-1027.  The
outer Option is fuel exhaustion inside _lazy_format, the Except is a
Python exception escaping _fail (bad policy key or formatting error). -/
def fail (fuel : Nat) (kw : Option String) (msg : String) (env : Env) :
    Option (Except Unit FailOut) :=
  match resolvePolicy kw env with
  | Option.none => some (.error ())
  | some p =>
    let cp := failCodes p
    if cp.1 > 1 then
      match lazyFormat fuel msg env with
      | Option.none => Option.none
      | some (.error e) => some (.error e)
      | some (.ok m) =>
        if cp.1 > 2 then some (.ok (.aborted (cp.2 ++ m) 1))
        else some (.ok (.warned (cp.2 ++ m)))
    else some (.ok .silent)

/-- What an operation invocation does on one host, as observed at the
try block of _try_run_operation: returns truthy, returns falsy, raises
some other exception with a message, or raises SystemExit. -/
inductive OpOutcome where
  | ok
  | fail
  | exc (msg : String)
  | sysExit (code : Nat)
deriving DecidableEq, Repr

/-- Result of one guarded invocation: continue (with the messages it
printed), terminate the process (SystemExit), an uncaught non-exit
Python exception escaping (only _fail itself can raise one here), or
divergence inside _lazy_format. -/
inductive TRRes where
  | cont (printed : List String)
  | exited (printed : List String) (code : Nat)
  | pyerr
  | diverged
deriving DecidableEq, Repr

/-- Conversion of a _fail outcome into the invocation result. -/
def trOfFail : Option (Except Unit FailOut) → TRRes
  | Option.none => .diverged
  | some (.error _) => .pyerr
  | some (.ok .silent) => .cont []
  | some (.ok (.warned w)) => .cont [w]
  | some (.ok (.aborted w c)) => .exited [w] c

/-- The message template shared by _try_run_operation and the
strategies. -/
def errMsg : String :=
  "The $(fab_current_operation) operation failed on $(fab_host)"

/-- The guard _try_run_operation, lines 988-1002.  SystemExit is
re-raised untouched; any other exception is converted into a failed
outcome whose diagnostic embeds the exception text and handed to _fail;
afterwards the success flag is still False, so a second _fail call
follows whenever the first one returned. -/
def tryRunOperation (fuel : Nat) (kw : Option String) (outcome : OpOutcome)
    (env : Env) : TRRes :=
  match outcome with
  | .ok => .cont []
  | .sysExit c => .exited [] c
  | .fail => trOfFail (fail fuel kw (errMsg ++ ".") env)
  | .exc m =>
    match fail fuel kw (errMsg ++ ":\n" ++ indentText m) env with
    | Option.none => .diverged
    | some (.error _) => .pyerr
    | some (.ok (.aborted w c)) => .exited [w] c
    | some (.ok .silent) => trOfFail (fail fuel kw (errMsg ++ ".") env)
    | some (.ok (.warned w)) =>
      match trOfFail (fail fuel kw (errMsg ++ ".") env) with
      | .cont ps => .cont (w :: ps)
      | .exited ps c => .exited (w :: ps) c
      | r => r

/-- A HostConnection: its host-scoped dict (initialised with fab_host
and fab_port by the constructor) and the identity whose shared
user-scoped dict it references.  The shared dicts live in ConnSt below,
which makes the aliasing between sibling connections explicit. -/
structure HostConn where
  userKey : String
  hostEnv : Env
deriving DecidableEq, Repr

/-- The user_envs table built by _connect: one shared identity-scoped
dict per resolved identity. -/
structure ConnSt where
  userEnvs : List (String × Env)
deriving DecidableEq, Repr

/-- The shared identity-scoped dict a connection references. -/
def userEnvOf (st : ConnSt) (c : HostConn) : Env :=
  (List.lookup c.userKey st.userEnvs).getD []

/-- Rebinding an identity-scoped dict, as mutation of the shared dict
object in user_envs. -/
def setUserEnv (st : ConnSt) (k : String) (e : Env) : ConnSt :=
  ⟨(k, e) :: st.userEnvs⟩

/-- The HostConnection constructor, lines 791-798: the host-scoped dict
holds the parsed hostname and port. -/
def mkConn (hostname : String) (port : Nat) (userKey : String) : HostConn :=
  ⟨userKey, [("fab_host", .str hostname), ("fab_port", .int port)]⟩

/-- HostConnection.get_env, lines 799-804: a fresh dict made of the
global env updated by the identity-scoped and then the host-scoped
layer, so that lookup prefers host over identity over global. -/
def connGetEnv (g : Env) (st : ConnSt) (c : HostConn) : Env :=
  c.hostEnv ++ userEnvOf st c ++ g

/-- The per-invocation environment a strategy builds: get_env plus the
fab_current_operation entry, lines 731-732 and 748-749. -/
def opEnv (opName : String) (g : Env) (st : ConnSt) (c : HostConn) : Env :=
  ("fab_current_operation", .str opName) :: connGetEnv g st c

/-- The host identifier a strategy extracts via env['fab_host']; a
missing or non-string entry means the strategy dies with a KeyError. -/
def hostOf (opName : String) (g : Env) (st : ConnSt) (c : HostConn) :
    Option String :=
  match List.lookup "fab_host" (opEnv opName g st c) with
  | some (.str h) => some h
  | _ => Option.none

/-- Host label used when stating in which order hosts were visited. -/
def hostLabel (opName : String) (g : Env) (st : ConnSt) (c : HostConn) : String :=
  (hostOf opName g st c).getD ""

/-- Result of a whole strategy run. -/
inductive RunRes where
  | finished
  | exited (code : Nat)
  | pyerr
  | diverged
deriving DecidableEq, Repr

/-- Trace of a strategy run: hosts invoked in order, messages printed,
and how the run ended. -/
structure RunTrace where
  invoked : List String
  printed : List String
  result : RunRes
deriving DecidableEq, Repr

/-- The sequential strategy _rolling_strategy, lines 743-752: hosts are
visited one at a time in list order, each outcome passing through
_try_run_operation (and thereby _fail) before the next host starts. -/
def rollingStrategy (fuel : Nat) (kw : Option String) (opName : String)
    (op : String → OpOutcome) (g : Env) (st : ConnSt) :
    List HostConn → RunTrace
  | [] => ⟨[], [], .finished⟩
  | c :: rest =>
    let env := opEnv opName g st c
    match List.lookup "fab_host" env with
    | some (.str host) =>
      match tryRunOperation fuel kw (op host) env with
      | .cont ps =>
        let t := rollingStrategy fuel kw opName op g st rest
        ⟨host :: t.invoked, ps ++ t.printed, t.result⟩
      | .exited ps code => ⟨[host], ps, .exited code⟩
      | .pyerr => ⟨[host], [], .pyerr⟩
      | .diverged => ⟨[host], [], .diverged⟩
    | _ => ⟨[], [], .pyerr⟩

/-- Trace of a fanout run: the results of the worker threads (in the
order their threads were created) and the outcome of the strategy call
itself in the main thread. -/
structure FanTrace where
  workers : List TRRes
  result : RunRes
deriving DecidableEq, Repr

/-- The concurrent strategy _fanout_strategy, lines 720-741, as the
source actually behaves.  Two defects are reproduced faithfully: the
functor closures capture the loop variables host and env by reference,
so every thread started after the loop runs with the values of the
final iteration; and sys.exit(1) inside a worker raises SystemExit in a
daemon thread, which the threading module swallows after killing only
that thread, so the strategy joins every thread and returns normally
and the surrounding run continues regardless of aborts. -/
def fanoutStrategy (fuel : Nat) (kw : Option String) (opName : String)
    (op : String → OpOutcome) (g : Env) (st : ConnSt)
    (conns : List HostConn) : FanTrace :=
  if conns.all (fun c => (hostOf opName g st c).isSome) then
    match conns.getLast? with
    | Option.none => ⟨[], .finished⟩
    | some clast =>
      let env := opEnv opName g st clast
      match List.lookup "fab_host" env with
      | some (.str host) =>
        ⟨conns.map (fun _ => tryRunOperation fuel kw (op host) env), .finished⟩
      | _ => ⟨[], .pyerr⟩
  else ⟨[], .pyerr⟩

/-- The six arguments HostConnection._do_connect extracts from the
merged environment and passes to the transport, lines 842-849. -/
structure ConnParams where
  host : Option PyVal
  port : Option PyVal
  user : Option PyVal
  password : Option PyVal
  pkey : Option PyVal
  keyfile : Option PyVal
deriving DecidableEq, Repr

/-- Extraction of the _do_connect arguments from an environment. -/
def connParamsOf (env : Env) : ConnParams :=
  ⟨ List.lookup "fab_host" env, List.lookup "fab_port" env,
    List.lookup "fab_user" env, List.lookup "fab_password" env,
    List.lookup "fab_pkey" env, List.lookup "fab_key_filename" env ⟩

/-- Outcome of HostConnection.connect: a connection with the updated
shared state, connection record and number of password prompts
consumed, or a clean process exit after end-of-input on the password
prompt (lines 832-835). -/
inductive ConnectRes where
  | connected (st : ConnSt) (c : HostConn) (promptsUsed : Nat)
  | exitedPrompt (code : Nat)
deriving DecidableEq, Repr

/-- The interactive retry loop of HostConnection.connect, lines
821-835.  Each iteration reads one password from the prompt stream,
stores it into the merged env copy and retries _do_connect; the
transport oracle auth answers whether those parameters authenticate.
Exhausting the stream is the EOFError case.  The loop returns the
password that finally worked and how many prompts were consumed. -/
def promptLoop (auth : ConnParams → Bool) (env : Env) :
    List String → Nat → Option (String × Nat)
  | [], _ => Option.none
  | p :: rest, used =>
    let env' := ("fab_password", PyVal.str p) :: env
    if auth (connParamsOf env') then some (p, used + 1)
    else
      promptLoop auth (("fab_passprompt_suffix", PyVal.str ": ") :: env') rest
        (used + 1)

/-- The merged environment at the start of the interactive retry loop:
the fab_passprompt_suffix entry of lines 817-820 added over the merged
environment of the connection. -/
def promptEnv (g : Env) (st : ConnSt) (c : HostConn) : Env :=
  ("fab_passprompt_suffix",
    PyVal.str
      (if (List.lookup "fab_password" (connGetEnv g st c)).elim false truthy
       then " [Enter for previous]: " else ": ")) :: connGetEnv g st c

/-- HostConnection.connect, lines 805-838.  A first _do_connect uses
the merged environment as is; on an authentication failure the
interactive loop runs, and on its success the accepted password is
written into both the host-scoped dict of this connection and the
shared identity-scoped dict (lines 836-837).  A first-try success
caches nothing. -/
def connect (auth : ConnParams → Bool) (g : Env) (st : ConnSt)
    (prompts : List String) (c : HostConn) : ConnectRes :=
  if auth (connParamsOf (connGetEnv g st c)) then .connected st c 0
  else
    match promptLoop auth (promptEnv g st c) prompts 0 with
    | Option.none => .exitedPrompt 0
    | some (p, n) =>
      .connected
        (setUserEnv st c.userKey (("fab_password", PyVal.str p) :: userEnvOf st c))
        { c with hostEnv := ("fab_password", PyVal.str p) :: c.hostEnv }
        n

/-- Splitting a character list at the first occurrence of a separator
character; Option.none when the separator does not occur.  This is the
behaviour of txt.find(sep) in the compatibility partition of lines
84-89 and of str.partition, for the one-character separators fabric.py
uses. -/
def partCh (sep : Char) : List Char → Option (List Char × List Char)
  | [] => Option.none
  | c :: cs =>
    if c = sep then some ([], cs)
    else (fun pr => (c :: pr.1, pr.2)) <$> partCh sep cs

/-- The partition helper of fabric.py restricted to one-character
separators: the text before the first separator, the separator when
found, and the text after it. -/
def pyPartition (txt : String) (sep : Char) : String × String × String :=
  match partCh sep txt.toList with
  | Option.none => (txt, "", "")
  | some (a, b) => (String.mk a, String.mk [sep], String.mk b)

/-- Decimal parsing of a character list: the value when every
character is a digit and there is at least one, Option.none
otherwise. -/
def decimalOfChars (cs : List Char) : Option Nat :=
  if cs ≠ [] ∧ cs.all Char.isDigit then
    some (cs.foldl (fun a c => a * 10 + (c.toNat - '0'.toNat)) 0)
  else Option.none

/-- Python int() on the values reaching line 925: an int passes
through, a digit string parses, anything else raises. -/
def pyInt : PyVal → Option Nat
  | .int n => some n
  | .str s => decimalOfChars s.toList
  | _ => Option.none

/-- The host-string parsing of _connect, lines 917-925: when the string
contains an at sign it is partitioned at the first one to obtain the
identity, the remainder is partitioned at the first colon to obtain the
port; an absent or empty identity falls back to the fab_user default
and an absent port to the fab_port default, coerced by int().  The
result is (identity, hostname, port); Option.none is an int()
failure. -/
def parseHostString (username : String) (defPort : PyVal) (host : String) :
    Option (String × String × Nat) :=
  let userAndRest :=
    if (partCh '@' host.toList).isSome then
      let pr := pyPartition host '@'
      (some pr.1, pr.2.2)
    else (Option.none, host)
  let hp := pyPartition userAndRest.2 ':'
  let user :=
    match userAndRest.1 with
    | Option.none => username
    | some u => if u = "" then username else u
  let port? := if hp.2.2 = "" then pyInt defPort else pyInt (.str hp.2.2)
  port?.map (fun pn => (user, hp.1, pn))

/-!  Sanity checks evaluating the embedded definitions on the concrete
examples of the specification. -/

example : lazyFormat 2 "$(a)" [("a", .str "x")] = some (.ok "x") := by decide
example : lazyFormat 3 "$(a)" [("a", .str "$(b)"), ("b", .str "y")] = some (.ok "y") := by
  decide
example : lazyFormat 1 "$(missing)" [] = some (.ok "$(missing)") := by decide
example : lazyFormat 1 "%%" [] = some (.ok "%") := by decide
example : lazyFormat 1 "100% done" [] = some (.error ()) := by decide
example : lazyFormat 2 "%(b)s" [("b", .str "z")] = some (.ok "z") := by decide
example : lazyFormat 3 "$(a)" [("a", .str "%(b)s"), ("b", .str "z")] = some (.ok "z") := by
  decide
example : lazyFormat 2 "$(a)" [("a", .none)] = some (.ok "None") := by decide
example :
    parseHostString "alice" (.int 22) "a@b@host2:2222" =
      some ("a", "b@host2", 2222) := by decide

/-!  Lemmas about dict lookup and the splitting helpers. -/

theorem lookup_append {α β : Type} [BEq α] (k : α) (l1 l2 : List (α × β)) :
    List.lookup k (l1 ++ l2) =
      ((List.lookup k l1).orElse fun _ => List.lookup k l2) := by
  induction l1 with
  | nil => rfl
  | cons kv rest ih =>
    by_cases h : k == kv.1 <;> simp [List.lookup, h, ih, Option.orElse]

@[simp] theorem stringMkData (s : String) : String.mk s.data = s := rfl

theorem partCh_not_mem {sep : Char} {cs : List Char} (h : sep ∉ cs) :
    partCh sep cs = Option.none := by
  induction cs with
  | nil => rfl
  | cons c cs ih =>
    simp only [List.mem_cons, not_or] at h
    simp [partCh, Ne.symm h.1, ih h.2]

theorem partCh_first {sep : Char} {u : List Char} (r : List Char) (h : sep ∉ u) :
    partCh sep (u ++ sep :: r) = some (u, r) := by
  induction u with
  | nil => simp [partCh]
  | cons c cs ih =>
    simp only [List.mem_cons, not_or] at h
    simp [partCh, Ne.symm h.1, ih h.2]

/-- C4: reading a key from the merged per-host environment built by
HostConnection.get_env returns the most specific layer's value: the
host-scoped value when the key is set there, otherwise the
identity-scoped value when set there, otherwise the global value; in
particular a host-scoped binding shadows a global binding of the same
key. -/
theorem get_env_scope_precedence :
    ∀ (g : Env) (st : ConnSt) (c : HostConn) (k : String) (v w : PyVal),
      (List.lookup k c.hostEnv = some v →
        List.lookup k (connGetEnv g st c) = some v) ∧
      (List.lookup k c.hostEnv = Option.none →
        List.lookup k (userEnvOf st c) = some v →
        List.lookup k (connGetEnv g st c) = some v) ∧
      (List.lookup k c.hostEnv = Option.none →
        List.lookup k (userEnvOf st c) = Option.none →
        List.lookup k (connGetEnv g st c) = List.lookup k g) ∧
      (List.lookup k c.hostEnv = some v → List.lookup k g = some w →
        List.lookup k (connGetEnv g st c) = some v) := by
  intro g st c k v w
  refine ⟨fun h1 => ?_, fun h1 h2 => ?_, fun h1 h2 => ?_, fun h1 _ => ?_⟩ <;>
    simp [connGetEnv, lookup_append, h1, Option.orElse] <;>
    simp [h2, Option.orElse]

/-- C4 witness: a concrete host-scoped binding shadows both an
identity-scoped and a global binding for the same key. -/
theorem get_env_scope_precedence_witness :
    List.lookup "k" (connGetEnv [("k", PyVal.str "global")]
        ⟨[("u", [("k", PyVal.str "ident")])]⟩
        ⟨"u", [("k", PyVal.str "host")]⟩) = some (PyVal.str "host") :=
  (get_env_scope_precedence [("k", PyVal.str "global")]
      ⟨[("u", [("k", PyVal.str "ident")])]⟩ ⟨"u", [("k", PyVal.str "host")]⟩
      "k" (PyVal.str "host") (PyVal.str "global")).1 (by decide)

/-- C7 counterexample: on a host string with two at signs the parser
keeps everything after the first at sign as the host part, so the
identity is the text before the first at sign, not the text before the
last one as the claim states. -/
theorem parse_host_last_at_counterexample :
    parseHostString "alice" (.int 22) "a@b@host2:2222" =
        some ("a", "b@host2", 2222) ∧
      parseHostString "alice" (.int 22) "a@b@host2:2222" ≠
        some ("a@b", "host2", 2222) := by
  constructor <;> decide

/-- C7 amended: parsing splits on the first at sign (not the last) to
obtain the identity, defaulting to the global identity when the at sign
is absent or the identity part empty, and on the first colon after that
to obtain the port, defaulting to the global port coerced by int();
the two concrete examples of the claim hold as stated. -/
theorem parse_host_first_at :
    (∀ (u : List Char) (r username : String) (dp : PyVal),
      '@' ∉ u → u ≠ [] →
      parseHostString username dp (String.mk (u ++ '@' :: r.toList)) =
        (let hp := pyPartition r ':'
         let port? := if hp.2.2 = "" then pyInt dp else pyInt (.str hp.2.2)
         port?.map (fun pn => (String.mk u, hp.1, pn)))) ∧
    (∀ (host username : String) (dp : PyVal),
      '@' ∉ host.toList → ':' ∉ host.toList →
      parseHostString username dp host =
        (pyInt dp).map (fun pn => (username, host, pn))) ∧
    parseHostString "alice" (.int 22) "dev@host2:2222" =
      some ("dev", "host2", 2222) ∧
    parseHostString "alice" (.int 22) "host3" = some ("alice", "host3", 22) := by
  refine ⟨?_, ?_, by decide, by decide⟩
  · intro u r username dp hu hne
    have hfind : partCh '@' (u ++ '@' :: r.data) = some (u, r.data) :=
      partCh_first r.data hu
    have hmk : String.mk u ≠ "" := by
      intro h
      apply hne
      have hd : (String.mk u).data = ("" : String).data := by rw [h]
      simpa using hd
    simp only [parseHostString, pyPartition, String.toList, hfind, hmk,
      Option.isSome_some, if_true, if_neg hmk, stringMkData]
    cases hp : partCh ':' r.data <;> simp [hp]
  · intro host username dp hat hcol
    have h1 : partCh '@' host.data = Option.none := partCh_not_mem hat
    have h2 : partCh ':' host.data = Option.none := partCh_not_mem hcol
    simp [parseHostString, pyPartition, String.toList, h1, h2]

/-- C1: for every message handled by _fail, the effective policy is the
per-call fail keyword when present (and a valid policy name), otherwise
the environment's fab_fail entry, which the initial ENV dict binds to
abort; ignore produces no observable effect, warn prints the
lazy-formatted message behind its prefix and control continues, and
abort prints the message and terminates the run with the non-zero exit
status 1. -/
theorem fail_resolution_and_application :
    ∀ (fuel : Nat) (kw : Option String) (env : Env) (msg m : String)
      (fv : PyVal) (q : Policy),
      List.lookup "fab_fail" env = some fv → policyOfVal fv = some q →
      lazyFormat fuel msg env = some (.ok m) →
      (∀ ks p', kw = some ks → policyOfStr ks = some p' →
        resolvePolicy kw env = some p') ∧
      (kw = Option.none → resolvePolicy kw env = some q) ∧
      (∀ u t, List.lookup "fab_fail" (initialENV u t) = some (.str "abort") ∧
        policyOfStr "abort" = some .abort) ∧
      (resolvePolicy kw env = some .ignore →
        fail fuel kw msg env = some (.ok .silent)) ∧
      (resolvePolicy kw env = some .warn →
        fail fuel kw msg env = some (.ok (.warned ("Warning: " ++ m)))) ∧
      (resolvePolicy kw env = some .abort →
        fail fuel kw msg env = some (.ok (.aborted ("Error: " ++ m) 1)) ∧
          (1 : Nat) ≠ 0) := by
  intro fuel kw env msg m fv q hfv hq hfmt
  refine ⟨?_, ?_, ?_, ?_, ?_, ?_⟩
  · intro ks p' hkw hks
    simp [resolvePolicy, hfv, hq, hkw, hks]
  · intro hkw
    simp [resolvePolicy, hfv, hq, hkw]
  · intro u t
    exact ⟨rfl, by decide⟩
  · intro hres
    simp [fail, hres, failCodes]
  · intro hres
    simp [fail, hres, failCodes, hfmt]
  · intro hres
    simp [fail, hres, failCodes, hfmt]

/-- C1 witness: with a warn override over an abort environment policy,
_fail resolves to warn and prints the prefixed message without exiting;
the same message under the environment policy alone aborts. -/
theorem fail_resolution_and_application_witness :
    resolvePolicy (some "warn") [("fab_fail", PyVal.str "abort")] =
        some Policy.warn ∧
      fail 1 (some "warn") "hi" [("fab_fail", PyVal.str "abort")] =
        some (.ok (.warned "Warning: hi")) := by
  have h := fail_resolution_and_application 1 (some "warn")
    [("fab_fail", PyVal.str "abort")] "hi" "hi" (PyVal.str "abort")
    Policy.abort (by decide) (by decide) (by decide)
  have hres : resolvePolicy (some "warn") [("fab_fail", PyVal.str "abort")] =
      some Policy.warn := h.1 "warn" Policy.warn rfl (by decide)
  exact ⟨hres, h.2.2.2.2.1 hres⟩

/-- C7 witness: the general first-at-sign clause of the amended claim
at a concrete input. -/
theorem parse_host_first_at_witness :
    parseHostString "alice" (PyVal.int 22)
        (String.mk ([ 'd', 'e', 'v' ] ++ '@' :: "host2:2222".toList)) =
      some ("dev", "host2", 2222) := by
  have h := parse_host_first_at.1 [ 'd', 'e', 'v' ] "host2:2222" "alice"
    (PyVal.int 22) (by decide) (by decide)
  simpa using h

/-!  Lemmas about the percent-formatting pass and the lazy scanner. -/

theorem pyFmtCore_no_pct {env : SEnv} {cs : List Char} (h : '%' ∉ cs) :
    pyFmtCore env .norm cs = .ok cs := by
  induction cs with
  | nil => rfl
  | cons c cs ih =>
    simp only [List.mem_cons, not_or] at h
    simp [pyFmtCore, if_neg (Ne.symm h.1), ih h.2, Functor.map, Except.map]

theorem pyFmtCore_key_word (env : SEnv) :
    ∀ (nm acc rest : List Char), ')' ∉ nm →
      pyFmtCore env (.key acc) (nm ++ rest) =
        pyFmtCore env (.key (nm.reverse ++ acc)) rest := by
  intro nm
  induction nm with
  | nil => intro acc rest _; simp
  | cons c nm ih =>
    intro acc rest h
    simp only [List.mem_cons, not_or] at h
    simp [pyFmtCore, if_neg (Ne.symm h.1), ih (c :: acc) rest h.2,
      List.append_assoc]

theorem word_chars_no_pct {nm : List Char} (h : nm.all isWordChar = true) :
    '%' ∉ nm := by
  intro hm
  have h2 := List.all_eq_true.mp h _ hm
  exact absurd h2 (by decide)

theorem noDollar_noToken : ∀ cs : List Char, '$' ∉ cs →
    hasLazyToken .norm cs = false := by
  intro cs
  induction cs with
  | nil => intro _; rfl
  | cons c cs ih =>
    intro h
    simp only [List.mem_cons, not_or] at h
    simp [hasLazyToken, if_neg (Ne.symm h.1), ih h.2]

theorem lfScan_no_token (recur : String → Option (Except Unit String))
    (env : SEnv) :
    ∀ (cs : List Char) (st : LzSt), hasLazyToken st cs = false →
      lfScan recur env st cs = some (.ok (pending st ++ cs)) := by
  intro cs
  induction cs with
  | nil =>
    intro st _
    cases st <;> simp [lfScan, pending]
  | cons c cs ih =>
    intro st h
    cases st with
    | norm =>
      by_cases hc : c = '$'
      · subst hc
        simp only [hasLazyToken, if_pos rfl] at h
        simpa [lfScan, pending] using ih .dollar h
      · simp only [hasLazyToken, if_neg hc] at h
        simp [lfScan, hc, ih .norm h, pending, omap, Except.map]
    | dollar =>
      by_cases hp : c = '('
      · subst hp
        simp only [hasLazyToken, if_pos rfl] at h
        simpa [lfScan, pending] using ih (.paren []) h
      · by_cases hd : c = '$'
        · subst hd
          simp [hasLazyToken] at h
          simp [lfScan, ih .dollar h, pending, omap, Except.map]
        · simp only [hasLazyToken, if_neg hp, if_neg hd] at h
          simp [lfScan, hp, hd, ih .norm h, pending, omap, Except.map]
    | paren acc =>
      by_cases hw : isWordChar c
      · simp only [hasLazyToken, if_pos hw] at h
        simpa [lfScan, hw, pending, List.append_assoc] using ih (.paren (c :: acc)) h
      · by_cases hcl : c = ')' ∧ acc ≠ []
        · simp only [hasLazyToken, if_neg hw, if_pos hcl] at h
          exact absurd h (by simp)
        · by_cases hd : c = '$'
          · subst hd
            simp [hasLazyToken, hw, hcl] at h
            simp [lfScan, hw, hcl, ih .dollar h, pending, omap, Except.map,
              List.append_assoc]
          · simp only [hasLazyToken, if_neg hw, if_neg hcl, if_neg hd] at h
            simp [lfScan, hw, hcl, hd, ih .norm h, pending, omap, Except.map,
              List.append_assoc]

theorem lfScan_paren_word (recur : String → Option (Except Unit String))
    (env : SEnv) :
    ∀ (nm acc rest : List Char), nm.all isWordChar = true →
      lfScan recur env (.paren acc) (nm ++ rest) =
        lfScan recur env (.paren (nm.reverse ++ acc)) rest := by
  intro nm
  induction nm with
  | nil => intro acc rest _; simp
  | cons c nm ih =>
    intro acc rest h
    simp only [List.all_cons, Bool.and_eq_true] at h
    simp [lfScan, h.1, ih (c :: acc) rest h.2, List.append_assoc]

theorem lazyFmtS_succ (fuel : Nat) (s : String) (env : SEnv) :
    lazyFmtS (fuel + 1) s env =
      (match pyFmtCore env .norm s.toList with
       | .error e => some (.error e)
       | .ok cs =>
         Option.map (Except.map String.mk)
           (lfScan (fun v => lazyFmtS fuel v env) env .norm cs)) := rfl

theorem lazyFmtS_succ_ok {fuel : Nat} {s : String} {env : SEnv}
    {cs : List Char} (h : pyFmtCore env .norm s.toList = .ok cs) :
    lazyFmtS (fuel + 1) s env =
      Option.map (Except.map String.mk)
        (lfScan (fun v => lazyFmtS fuel v env) env .norm cs) := by
  rw [lazyFmtS_succ, h]

theorem lfScan_token_unbound (recur : String → Option (Except Unit String))
    (env : SEnv) (nm rest : List Char) (hne : nm ≠ [])
    (hword : nm.all isWordChar = true)
    (hlook : List.lookup (String.mk nm) env = Option.none) :
    lfScan recur env .norm ('$' :: '(' :: nm ++ ')' :: rest) =
      omap (fun r => '$' :: '(' :: (nm ++ ')' :: r))
        (lfScan recur env .norm rest) := by
  have hrev : nm.reverse ≠ [] := by
    simpa using fun h => hne (List.reverse_eq_nil_iff.mp h)
  have step1 : lfScan recur env .norm ('$' :: '(' :: nm ++ ')' :: rest) =
      lfScan recur env (.paren []) (nm ++ ')' :: rest) := by
    simp [lfScan]
  rw [step1, lfScan_paren_word recur env nm [] (')' :: rest) hword]
  simp [lfScan, hrev, List.reverse_reverse, hlook,
    show isWordChar ')' = false from by decide]

theorem lfScan_token_bound (recur : String → Option (Except Unit String))
    (env : SEnv) (nm rest : List Char) (v : String) (hne : nm ≠ [])
    (hword : nm.all isWordChar = true)
    (hlook : List.lookup (String.mk nm) env = some v) (hv : '%' ∉ v.data) :
    lfScan recur env .norm ('$' :: '(' :: nm ++ ')' :: rest) =
      (match recur v with
       | Option.none => Option.none
       | some (.error e) => some (.error e)
       | some (.ok r) => omap (r.data ++ ·) (lfScan recur env .norm rest)) := by
  have hrev : nm.reverse ≠ [] := by
    simpa using fun h => hne (List.reverse_eq_nil_iff.mp h)
  have step1 : lfScan recur env .norm ('$' :: '(' :: nm ++ ')' :: rest) =
      lfScan recur env (.paren []) (nm ++ ')' :: rest) := by
    simp [lfScan]
  rw [step1, lfScan_paren_word recur env nm [] (')' :: rest) hword]
  simp [lfScan, hrev, List.reverse_reverse, hlook, String.toList,
    pyFmtCore_no_pct hv, stringMkData,
    show isWordChar ')' = false from by decide]

/-- C6 counterexample: the string of two percent signs contains no
lazy token, yet _lazy_format collapses it to a single percent sign
because the Python percent-formatting pass runs first, so lazy
formatting is not the identity on it. -/
theorem lazy_format_identity_counterexample :
    hasLazyToken .norm ("%%" : String).toList = false ∧
      lazyFormat 1 "%%" [] = some (.ok "%") ∧
      lazyFormat 1 "%%" [] ≠ some (.ok "%%") := by
  refine ⟨by decide, by decide, by decide⟩

/-- C6 amended: for every string containing no lazy token and no
percent character, _lazy_format is the identity on it under every
environment and recursion budget. -/
theorem lazy_format_identity_on_plain_strings :
    ∀ (s : String) (env : Env) (fuel : Nat),
      hasLazyToken .norm s.toList = false → '%' ∉ s.toList →
      lazyFormat (fuel + 1) s env = some (.ok s) := by
  intro s env fuel ht hp
  have h1 : pyFmtCore (stringify env) .norm s.data = .ok s.data :=
    pyFmtCore_no_pct hp
  have h2 := lfScan_no_token (fun v => lazyFmtS fuel v (stringify env))
    (stringify env) s.data .norm ht
  simp [lazyFormat, lazyFmtS, String.toList, h1, h2, pending, Except.map]

/-- C6 witness: the amended identity at a concrete plain string. -/
theorem lazy_format_identity_on_plain_strings_witness :
    lazyFormat 1 "hello" [("x", PyVal.int 3)] = some (.ok "hello") :=
  lazy_format_identity_on_plain_strings "hello" [("x", PyVal.int 3)] 0
    (by decide) (by decide)

/-- C5: a lazy token over an unbound name is left verbatim in the
output; a lazy token over a bound name is replaced by the binding's
value recursively lazy-formatted against the same environment; and the
three concrete examples of the claim hold, including the recursive
chain through two bindings. -/
theorem lazy_format_resolution :
    (∀ (nm : List Char) (env : Env) (fuel : Nat),
      nm ≠ [] → nm.all isWordChar = true →
      List.lookup (String.mk nm) (stringify env) = Option.none →
      lazyFormat (fuel + 1) (String.mk ('$' :: '(' :: nm ++ [')'])) env =
        some (.ok (String.mk ('$' :: '(' :: nm ++ [')'])))) ∧
    (∀ (nm : List Char) (env : Env) (fuel : Nat) (v : String),
      nm ≠ [] → nm.all isWordChar = true →
      List.lookup (String.mk nm) (stringify env) = some v →
      '%' ∉ v.toList →
      lazyFormat (fuel + 1) (String.mk ('$' :: '(' :: nm ++ [')'])) env =
        lazyFmtS fuel v (stringify env)) ∧
    lazyFormat 2 "$(a)" [("a", .str "x")] = some (.ok "x") ∧
    lazyFormat 3 "$(a)" [("a", .str "$(b)"), ("b", .str "y")] =
      some (.ok "y") ∧
    lazyFormat 1 "$(missing)" [] = some (.ok "$(missing)") := by
  refine ⟨?_, ?_, by decide, by decide, by decide⟩
  · intro nm env fuel hne hword hlook
    have hpc : '%' ∉ ('$' :: '(' :: nm ++ [')']) := by
      intro hm
      apply word_chars_no_pct hword
      rcases List.mem_cons.mp hm with h | hm2
      · exact absurd h (by decide)
      rcases List.mem_cons.mp hm2 with h | hm3
      · exact absurd h (by decide)
      rcases List.mem_append.mp hm3 with h | h
      · exact h
      · exact absurd (List.mem_singleton.mp h) (by decide)
    have h1 : pyFmtCore (stringify env) .norm ('$' :: '(' :: nm ++ [')']) =
        .ok ('$' :: '(' :: nm ++ [')']) := pyFmtCore_no_pct hpc
    have h2 := lfScan_token_unbound (fun v => lazyFmtS fuel v (stringify env))
      (stringify env) nm [] hne hword hlook
    show lazyFmtS (fuel + 1) (String.mk ('$' :: '(' :: nm ++ [')']))
        (stringify env) = _
    rw [lazyFmtS_succ_ok (show pyFmtCore (stringify env) .norm
      (String.mk ('$' :: '(' :: nm ++ [')'])).toList =
        .ok ('$' :: '(' :: nm ++ [')']) from h1), h2]
    simp [lfScan, omap, Except.map]
  · intro nm env fuel v hne hword hlook hv
    have hpc : '%' ∉ ('$' :: '(' :: nm ++ [')']) := by
      intro hm
      apply word_chars_no_pct hword
      rcases List.mem_cons.mp hm with h | hm2
      · exact absurd h (by decide)
      rcases List.mem_cons.mp hm2 with h | hm3
      · exact absurd h (by decide)
      rcases List.mem_append.mp hm3 with h | h
      · exact h
      · exact absurd (List.mem_singleton.mp h) (by decide)
    have h1 : pyFmtCore (stringify env) .norm ('$' :: '(' :: nm ++ [')']) =
        .ok ('$' :: '(' :: nm ++ [')']) := pyFmtCore_no_pct hpc
    have h2 := lfScan_token_bound (fun w => lazyFmtS fuel w (stringify env))
      (stringify env) nm [] v hne hword hlook hv
    show lazyFmtS (fuel + 1) (String.mk ('$' :: '(' :: nm ++ [')']))
        (stringify env) = _
    rw [lazyFmtS_succ_ok (show pyFmtCore (stringify env) .norm
      (String.mk ('$' :: '(' :: nm ++ [')'])).toList =
        .ok ('$' :: '(' :: nm ++ [')']) from h1), h2]
    cases hres : lazyFmtS fuel v (stringify env) with
    | none => simp [hres]
    | some e =>
      cases e with
      | error e => simp [hres, Except.map]
      | ok r => simp [hres, lfScan, omap, Except.map]

/-- C5 witness: the unresolved-passthrough and bound-replacement
clauses at concrete inputs. -/
theorem lazy_format_resolution_witness :
    lazyFormat 1 (String.mk ['$', '(', 'q', ')']) [("z", PyVal.int 1)] =
        some (.ok (String.mk ['$', '(', 'q', ')'])) ∧
      lazyFormat 3 (String.mk ['$', '(', 'a', ')']) [("a", PyVal.str "ok")] =
        lazyFmtS 2 "ok" (stringify [("a", PyVal.str "ok")]) := by
  constructor
  · exact lazy_format_resolution.1 ['q'] [("z", PyVal.int 1)] 0 (by decide)
      (by decide) (by decide)
  · exact lazy_format_resolution.2.1 ['a'] [("a", PyVal.str "ok")] 2 "ok"
      (by decide) (by decide) (by decide) (by decide)

/-- C10: percent-style eager references are expanded by _lazy_format at
consumption time: a %(name)s reference in the template is interpolated
although the template holds no lazy token; a percent sign that does not
begin a valid conversion makes _lazy_format raise instead of returning
the string unchanged; and eager references inside substituted values
are expanded as well. -/
theorem lazy_format_eager_percent :
    (∀ (nm : List Char) (env : Env) (fuel : Nat) (v : String),
      ')' ∉ nm →
      List.lookup (String.mk nm) (stringify env) = some v →
      '$' ∉ v.toList →
      lazyFormat (fuel + 1) (String.mk ('%' :: '(' :: nm ++ [')', 's'])) env =
        some (.ok v)) ∧
    (∀ (env : Env) (fuel : Nat),
      lazyFormat (fuel + 1) "100% done" env = some (.error ())) ∧
    lazyFormat 3 "$(a)" [("a", .str "%(b)s"), ("b", .str "z")] =
      some (.ok "z") := by
  refine ⟨?_, ?_, by decide⟩
  · intro nm env fuel v hparen hlook hdol
    have h1 : pyFmtCore (stringify env) .norm ('%' :: '(' :: nm ++ [')', 's']) =
        .ok v.data := by
      have step1 : pyFmtCore (stringify env) .norm ('%' :: '(' :: nm ++ [')', 's']) =
          pyFmtCore (stringify env) (.key []) (nm ++ [')', 's']) := by
        simp [pyFmtCore]
      rw [step1, pyFmtCore_key_word (stringify env) nm [] (')' :: ['s']) hparen]
      simp [pyFmtCore, List.reverse_reverse, hlook, String.toList, Except.map]
    have h2 := lfScan_no_token (fun w => lazyFmtS fuel w (stringify env))
      (stringify env) v.data .norm (noDollar_noToken v.data hdol)
    show lazyFmtS (fuel + 1) (String.mk ('%' :: '(' :: nm ++ [')', 's']))
        (stringify env) = _
    rw [lazyFmtS_succ_ok (show pyFmtCore (stringify env) .norm
      (String.mk ('%' :: '(' :: nm ++ [')', 's'])).toList =
        .ok v.data from h1), h2]
    simp [pending, Except.map]
  · intro env fuel
    have hl : ("100% done" : String).toList =
        ['1', '0', '0', '%', ' ', 'd', 'o', 'n', 'e'] := rfl
    show lazyFmtS (fuel + 1) "100% done" (stringify env) = _
    rw [lazyFmtS_succ, hl]
    simp [pyFmtCore, Except.map]

/-- C10 witness: the eager-reference and invalid-conversion clauses at
concrete inputs. -/
theorem lazy_format_eager_percent_witness :
    lazyFormat 1 (String.mk ['%', '(', 'b', ')', 's']) [("b", PyVal.str "z")] =
        some (.ok "z") ∧
      lazyFormat 1 "100% done" [] = some (.error ()) := by
  constructor
  · exact lazy_format_eager_percent.1 ['b'] [("b", PyVal.str "z")] 0 "z"
      (by decide) (by decide) (by decide)
  · exact lazy_format_eager_percent.2.1 [] 0

/-!  Lemmas about the failure engine and the invocation guard. -/

theorem trOfFail_exited_inv {r : Option (Except Unit FailOut)}
    {ps : List String} {code : Nat} (h : trOfFail r = .exited ps code) :
    ∃ w, r = some (.ok (.aborted w code)) ∧ ps = [w] := by
  match r with
  | Option.none => simp [trOfFail] at h
  | some (.error e) => simp [trOfFail] at h
  | some (.ok .silent) => simp [trOfFail] at h
  | some (.ok (.warned w)) => simp [trOfFail] at h
  | some (.ok (.aborted w c)) =>
    simp only [trOfFail, TRRes.exited.injEq] at h
    exact ⟨w, by rw [h.2], h.1.symm⟩

theorem fail_aborted_inv {fuel : Nat} {kw : Option String} {msg : String}
    {env : Env} {w : String} {c : Nat}
    (h : fail fuel kw msg env = some (.ok (.aborted w c))) :
    resolvePolicy kw env = some .abort ∧ c = 1 := by
  unfold fail at h
  cases hres : resolvePolicy kw env with
  | none => rw [hres] at h; simp at h
  | some p =>
    rw [hres] at h
    cases p with
    | ignore => simp [failCodes] at h
    | warn =>
      cases hf : lazyFormat fuel msg env with
      | none => simp [failCodes, hf] at h
      | some e =>
        cases e with
        | error e => simp [failCodes, hf] at h
        | ok m => simp [failCodes, hf] at h
    | abort =>
      cases hf : lazyFormat fuel msg env with
      | none => simp [failCodes, hf] at h
      | some e =>
        cases e with
        | error e => simp [failCodes, hf] at h
        | ok m =>
          simp only [failCodes, hf] at h
          simp at h
          exact ⟨rfl, h.2.symm⟩

/-- C3: SystemExit raised by an operation is re-raised untouched by
_try_run_operation; any other exception is caught at the invocation
boundary, converted into a failed outcome whose diagnostic embeds the
exception text, and handed to the failure engine, after which control
continues under ignore, continues with printed warnings under warn, and
exits with status 1 under abort; and the guard only ever exits the
process through the re-raised SystemExit or the failure engine's abort
path. -/
theorem tryRun_fault_containment :
    ∀ (fuel : Nat) (kw : Option String) (env : Env) (m : String) (c : Nat),
      (tryRunOperation fuel kw (.sysExit c) env = .exited [] c) ∧
      (resolvePolicy kw env = some .ignore →
        tryRunOperation fuel kw (.exc m) env = .cont []) ∧
      (∀ m1 m2, resolvePolicy kw env = some .warn →
        lazyFormat fuel (errMsg ++ ":\n" ++ indentText m) env =
          some (.ok m1) →
        lazyFormat fuel (errMsg ++ ".") env = some (.ok m2) →
        tryRunOperation fuel kw (.exc m) env =
          .cont ["Warning: " ++ m1, "Warning: " ++ m2]) ∧
      (∀ m1, resolvePolicy kw env = some .abort →
        lazyFormat fuel (errMsg ++ ":\n" ++ indentText m) env =
          some (.ok m1) →
        tryRunOperation fuel kw (.exc m) env =
          .exited ["Error: " ++ m1] 1) ∧
      (∀ (out : OpOutcome) (ps : List String) (code : Nat),
        tryRunOperation fuel kw out env = .exited ps code →
        out = .sysExit code ∨
          (resolvePolicy kw env = some .abort ∧ code = 1)) := by
  intro fuel kw env m c
  refine ⟨rfl, ?_, ?_, ?_, ?_⟩
  · intro hres
    simp [tryRunOperation, fail, hres, failCodes, trOfFail]
  · intro m1 m2 hres hf1 hf2
    simp [tryRunOperation, fail, hres, failCodes, hf1, hf2, trOfFail]
  · intro m1 hres hf1
    simp [tryRunOperation, fail, hres, failCodes, hf1]
  · intro out ps code h
    cases out with
    | ok => simp [tryRunOperation] at h
    | sysExit c' =>
      simp only [tryRunOperation, TRRes.exited.injEq] at h
      exact Or.inl (by rw [h.2])
    | fail =>
      simp only [tryRunOperation] at h
      obtain ⟨w, hw, _⟩ := trOfFail_exited_inv h
      exact Or.inr (fail_aborted_inv hw)
    | exc m' =>
      simp only [tryRunOperation] at h
      revert h
      cases h1 : fail fuel kw (errMsg ++ ":\n" ++ indentText m') env with
      | none => intro h; simp at h
      | some e =>
        cases e with
        | error e => intro h; simp at h
        | ok fo =>
          cases fo with
          | silent =>
            intro h
            obtain ⟨w, hw, _⟩ := trOfFail_exited_inv h
            exact Or.inr (fail_aborted_inv hw)
          | warned w =>
            revert h1
            cases h2 : trOfFail (fail fuel kw (errMsg ++ ".") env) with
            | cont ps2 => intro h1 h; simp at h
            | exited ps2 c2 =>
              intro h1 h
              simp only [TRRes.exited.injEq] at h
              obtain ⟨w2, hw2, _⟩ := trOfFail_exited_inv h2
              have h3 := fail_aborted_inv hw2
              exact Or.inr ⟨h3.1, by rw [← h.2, h3.2]⟩
            | pyerr => intro h1 h; simp at h
            | diverged => intro h1 h; simp at h
          | aborted w c2 =>
            intro h
            simp only [TRRes.exited.injEq] at h
            have h3 := fail_aborted_inv h1
            exact Or.inr ⟨h3.1, by rw [← h.2, h3.2]⟩

/-- C3 witness: an exception under the warn policy is converted into
two printed warnings carrying the diagnostic, and the invocation
continues. -/
theorem tryRun_fault_containment_witness :
    tryRunOperation 1 Option.none (.exc "boom")
        [("fab_fail", PyVal.str "warn")] =
      .cont
        ["Warning: The $(fab_current_operation) operation failed on $(fab_host):\n    boom",
         "Warning: The $(fab_current_operation) operation failed on $(fab_host)."] := by
  have h := tryRun_fault_containment 1 Option.none
    [("fab_fail", PyVal.str "warn")] "boom" 0
  exact h.2.2.1 _ _ (by decide) (by decide) (by decide)

/-!  Lemmas about the sequential strategy. -/

theorem rolling_cons (fuel : Nat) (kw : Option String) (opName : String)
    (op : String → OpOutcome) (g : Env) (st : ConnSt) (c : HostConn)
    (rest : List HostConn) :
    rollingStrategy fuel kw opName op g st (c :: rest) =
      (match List.lookup "fab_host" (opEnv opName g st c) with
       | some (.str host) =>
         match tryRunOperation fuel kw (op host) (opEnv opName g st c) with
         | .cont ps =>
           let t := rollingStrategy fuel kw opName op g st rest
           ⟨host :: t.invoked, ps ++ t.printed, t.result⟩
         | .exited ps code => ⟨[host], ps, .exited code⟩
         | .pyerr => ⟨[host], [], .pyerr⟩
         | .diverged => ⟨[host], [], .diverged⟩
       | _ => ⟨[], [], .pyerr⟩) := rfl

theorem hostOf_some {opName : String} {g : Env} {st : ConnSt} {c : HostConn}
    {h : String} :
    hostOf opName g st c = some h ↔
      List.lookup "fab_host" (opEnv opName g st c) = some (.str h) := by
  unfold hostOf
  cases hl : List.lookup "fab_host" (opEnv opName g st c) with
  | none => simp
  | some v => cases v <;> simp

theorem tryRun_abort_stops {fuel : Nat} {kw : Option String} {env : Env}
    {out : OpOutcome} (habort : resolvePolicy kw env = some .abort)
    (hout : out = .fail ∨ ∃ m, out = .exc m) :
    ∀ ps, tryRunOperation fuel kw out env ≠ .cont ps := by
  intro ps h
  rcases hout with h1 | ⟨m, h1⟩ <;> subst h1
  · cases hf : lazyFormat fuel (errMsg ++ ".") env with
    | none => simp [tryRunOperation, trOfFail, fail, habort, failCodes, hf] at h
    | some e =>
      cases e with
      | error e =>
        simp [tryRunOperation, trOfFail, fail, habort, failCodes, hf] at h
      | ok m2 =>
        simp [tryRunOperation, trOfFail, fail, habort, failCodes, hf] at h
  · cases hf : lazyFormat fuel (errMsg ++ ":\n" ++ indentText m) env with
    | none => simp [tryRunOperation, trOfFail, fail, habort, failCodes, hf] at h
    | some e =>
      cases e with
      | error e =>
        simp [tryRunOperation, trOfFail, fail, habort, failCodes, hf] at h
      | ok m2 =>
        simp [tryRunOperation, trOfFail, fail, habort, failCodes, hf] at h

/-- C2: under the rolling strategy hosts are invoked one at a time in
the stable order of the connection list (the invoked hosts always form
a prefix of the list, and when every operation succeeds the whole list
is visited in order and the run finishes); each outcome passes through
the failure engine before the next host starts, so when the resolved
policy at a failing or raising host is abort, the run stops there and
no later host is ever invoked. -/
theorem rolling_stable_order_and_fail_fast :
    ∀ (fuel : Nat) (kw : Option String) (opName : String)
      (op : String → OpOutcome) (g : Env) (st : ConnSt)
      (conns pre post : List HostConn) (cf : HostConn),
      (∃ t, conns.map (hostLabel opName g st) =
        (rollingStrategy fuel kw opName op g st conns).invoked ++ t) ∧
      ((∀ c ∈ conns, ∃ h, hostOf opName g st c = some h ∧ op h = .ok) →
        (rollingStrategy fuel kw opName op g st conns).invoked =
            conns.map (hostLabel opName g st) ∧
          (rollingStrategy fuel kw opName op g st conns).result =
            .finished) ∧
      (conns = pre ++ cf :: post →
        (∀ c ∈ pre, ∃ h, hostOf opName g st c = some h ∧ op h = .ok) →
        (∃ h, hostOf opName g st cf = some h ∧
          (op h = .fail ∨ ∃ m, op h = .exc m)) →
        resolvePolicy kw (opEnv opName g st cf) = some .abort →
        (rollingStrategy fuel kw opName op g st conns).invoked =
            (pre ++ [cf]).map (hostLabel opName g st) ∧
          (rollingStrategy fuel kw opName op g st conns).result ≠
            .finished) := by
  intro fuel kw opName op g st conns pre post cf
  refine ⟨?_, ?_, ?_⟩
  · induction conns with
    | nil => exact ⟨[], rfl⟩
    | cons c rest ih =>
      obtain ⟨t, ht⟩ := ih
      rw [rolling_cons]
      cases hl : List.lookup "fab_host" (opEnv opName g st c) with
      | none => exact ⟨_, rfl⟩
      | some v =>
        cases v with
        | str h =>
          have hlab : hostLabel opName g st c = h := by
            simp [hostLabel, hostOf_some.mpr hl]
          cases htr : tryRunOperation fuel kw (op h) (opEnv opName g st c) with
          | cont ps => exact ⟨t, by simp [hlab, ht, htr]⟩
          | exited ps code =>
            exact ⟨rest.map (hostLabel opName g st), by simp [hlab, htr]⟩
          | pyerr => exact ⟨rest.map (hostLabel opName g st), by simp [hlab, htr]⟩
          | diverged => exact ⟨rest.map (hostLabel opName g st), by simp [hlab, htr]⟩
        | int n => exact ⟨_, rfl⟩
        | bool b => exact ⟨_, rfl⟩
        | none => exact ⟨_, rfl⟩
  · induction conns with
    | nil => intro _; exact ⟨rfl, rfl⟩
    | cons c rest ih =>
      intro hall
      obtain ⟨h, hh, hok⟩ := hall c (List.mem_cons_self c rest)
      have ihr := ih (fun c' hc' => hall c' (List.mem_cons_of_mem c hc'))
      have hlab : hostLabel opName g st c = h := by
        simp [hostLabel, hh]
      rw [rolling_cons]
      simp [hostOf_some.mp hh, hok, tryRunOperation, hlab, ihr.1, ihr.2]
  · induction pre generalizing conns with
    | nil =>
      intro hconns _ hf habort
      obtain ⟨h, hh, hfail⟩ := hf
      subst hconns
      have hlab : hostLabel opName g st cf = h := by
        simp [hostLabel, hh]
      simp only [List.nil_append]
      rw [rolling_cons]
      cases htr : tryRunOperation fuel kw (op h) (opEnv opName g st cf) with
      | cont ps => exact absurd htr (tryRun_abort_stops habort hfail ps)
      | exited ps code => simp [hostOf_some.mp hh, htr, hlab]
      | pyerr => simp [hostOf_some.mp hh, htr, hlab]
      | diverged => simp [hostOf_some.mp hh, htr, hlab]
    | cons c pre' ih =>
      intro hconns hpre hf habort
      subst hconns
      obtain ⟨h, hh, hok⟩ := hpre c (List.mem_cons_self c pre')
      have hlab : hostLabel opName g st c = h := by
        simp [hostLabel, hh]
      have ihr := ih (pre' ++ cf :: post) rfl
        (fun c' hc' => hpre c' (List.mem_cons_of_mem c hc')) hf habort
      simp only [List.cons_append]
      rw [rolling_cons]
      simp [hostOf_some.mp hh, hok, tryRunOperation, hlab, ihr.1, ihr.2]

/-- C2 witness: rolling over hosts A, B, C with abort policy and an
operation failing on B invokes A then B and stops without finishing; C
is never invoked. -/
theorem rolling_stable_order_and_fail_fast_witness :
    (rollingStrategy 5 Option.none "run"
        (fun h => if h = "B" then OpOutcome.fail else OpOutcome.ok)
        [("fab_fail", PyVal.str "abort")] ⟨[]⟩
        [mkConn "A" 22 "u", mkConn "B" 22 "u", mkConn "C" 22 "u"]).invoked =
        ["A", "B"] ∧
      (rollingStrategy 5 Option.none "run"
        (fun h => if h = "B" then OpOutcome.fail else OpOutcome.ok)
        [("fab_fail", PyVal.str "abort")] ⟨[]⟩
        [mkConn "A" 22 "u", mkConn "B" 22 "u", mkConn "C" 22 "u"]).result ≠
        .finished := by
  have h := (rolling_stable_order_and_fail_fast 5 Option.none "run"
    (fun h => if h = "B" then OpOutcome.fail else OpOutcome.ok)
    [("fab_fail", PyVal.str "abort")] ⟨[]⟩
    [mkConn "A" 22 "u", mkConn "B" 22 "u", mkConn "C" 22 "u"]
    [mkConn "A" 22 "u"] [mkConn "C" 22 "u"] (mkConn "B" 22 "u")).2.2
  have h2 := h rfl
    (by
      intro c hc
      simp only [List.mem_singleton] at hc
      subst hc
      exact ⟨"A", by decide, by decide⟩)
    ⟨"B", by decide, Or.inl (by decide)⟩
    (by decide)
  refine ⟨?_, h2.2⟩
  rw [h2.1]
  decide

/-!  Lemmas about the interactive authentication loop. -/

theorem promptLoop_mem (auth : ConnParams → Bool) :
    ∀ (prompts : List String) (env : Env) (used : Nat) (p : String) (n : Nat),
      promptLoop auth env prompts used = some (p, n) → p ∈ prompts := by
  intro prompts
  induction prompts with
  | nil => intro env used p n h; simp [promptLoop] at h
  | cons q rest ih =>
    intro env used p n h
    simp only [promptLoop] at h
    by_cases ha : auth (connParamsOf (("fab_password", PyVal.str q) :: env))
    · rw [if_pos ha] at h
      simp only [Option.some.injEq, Prod.mk.injEq] at h
      exact h.1 ▸ List.mem_cons_self q rest
    · rw [if_neg ha] at h
      exact List.mem_cons_of_mem _ (ih _ _ _ _ h)

/-- C8: when HostConnection.connect succeeds through the interactive
password prompt, the entered password is written into both the
host-scoped layer of that connection and the shared identity-scoped
layer, so every sibling connection under the same identity whose own
host layer does not bind the password sees the cached password in its
merged environment, and a sibling whose parameters (now carrying that
password) the transport accepts connects without consuming any further
prompt. -/
theorem connect_caches_password :
    ∀ (auth : ConnParams → Bool) (g : Env) (st : ConnSt)
      (prompts : List String) (c : HostConn) (st' : ConnSt) (c' : HostConn)
      (n : Nat),
      connect auth g st prompts c = .connected st' c' n → 0 < n →
      ∃ p, p ∈ prompts ∧
        List.lookup "fab_password" c'.hostEnv = some (.str p) ∧
        List.lookup "fab_password" (userEnvOf st' c) = some (.str p) ∧
        (∀ c2 : HostConn, c2.userKey = c.userKey →
          List.lookup "fab_password" c2.hostEnv = Option.none →
          List.lookup "fab_password" (connGetEnv g st' c2) = some (.str p) ∧
          (auth (connParamsOf (connGetEnv g st' c2)) = true →
            connect auth g st' [] c2 = .connected st' c2 0)) := by
  intro auth g st prompts c st' c' n hconn hn
  unfold connect at hconn
  by_cases hfirst : auth (connParamsOf (connGetEnv g st c))
  · rw [if_pos hfirst] at hconn
    injection hconn with h1 h2 h3
    omega
  · rw [if_neg hfirst] at hconn
    revert hconn
    cases hpl : promptLoop auth (promptEnv g st c) prompts 0 with
    | none => intro hconn; simp at hconn
    | some pn =>
      obtain ⟨p, n'⟩ := pn
      intro hconn
      injection hconn with hst hc hn'
      refine ⟨p, promptLoop_mem auth prompts _ 0 p n' hpl, ?_, ?_, ?_⟩
      · rw [← hc]
        simp [List.lookup]
      · rw [← hst]
        simp [userEnvOf, setUserEnv, List.lookup]
      · intro c2 hk hnone
        constructor
        · rw [← hst]
          simp [connGetEnv, lookup_append, hnone, userEnvOf, setUserEnv, hk,
            List.lookup, Option.orElse]
        · intro hauth
          unfold connect
          rw [if_pos hauth]

/-- C8 witness: a connection for identity alice succeeds on the second
prompt with the password sesame; both layers hold it afterwards and a
second host under alice connects with zero prompts. -/
theorem connect_caches_password_witness :
    ∃ p, p ∈ ["wrong", "sesame"] ∧
      List.lookup "fab_password"
          (HostConn.hostEnv
            ⟨"alice", [("fab_password", PyVal.str "sesame"),
              ("fab_host", PyVal.str "h1"), ("fab_port", PyVal.int 22)]⟩) =
        some (.str p) ∧
      List.lookup "fab_password"
          (userEnvOf
            ⟨[("alice", [("fab_password", PyVal.str "sesame"),
                ("fab_user", PyVal.str "alice")]),
              ("alice", [("fab_user", PyVal.str "alice")])]⟩
            (mkConn "h1" 22 "alice")) = some (.str p) ∧
      (∀ c2 : HostConn, c2.userKey = (mkConn "h1" 22 "alice").userKey →
        List.lookup "fab_password" c2.hostEnv = Option.none →
        List.lookup "fab_password"
            (connGetEnv []
              ⟨[("alice", [("fab_password", PyVal.str "sesame"),
                  ("fab_user", PyVal.str "alice")]),
                ("alice", [("fab_user", PyVal.str "alice")])]⟩ c2) =
          some (.str p) ∧
        ((fun cp => decide (cp.password = some (PyVal.str "sesame")))
            (connParamsOf (connGetEnv []
              ⟨[("alice", [("fab_password", PyVal.str "sesame"),
                  ("fab_user", PyVal.str "alice")]),
                ("alice", [("fab_user", PyVal.str "alice")])]⟩ c2)) = true →
          connect (fun cp => decide (cp.password = some (PyVal.str "sesame")))
              []
              ⟨[("alice", [("fab_password", PyVal.str "sesame"),
                  ("fab_user", PyVal.str "alice")]),
                ("alice", [("fab_user", PyVal.str "alice")])]⟩ [] c2 =
            .connected
              ⟨[("alice", [("fab_password", PyVal.str "sesame"),
                  ("fab_user", PyVal.str "alice")]),
                ("alice", [("fab_user", PyVal.str "alice")])]⟩ c2 0)) :=
  connect_caches_password
    (fun cp => decide (cp.password = some (PyVal.str "sesame")))
    [] ⟨[("alice", [("fab_user", PyVal.str "alice")])]⟩ ["wrong", "sesame"]
    (mkConn "h1" 22 "alice")
    ⟨[("alice", [("fab_password", PyVal.str "sesame"),
        ("fab_user", PyVal.str "alice")]),
      ("alice", [("fab_user", PyVal.str "alice")])]⟩
    ⟨"alice", [("fab_password", PyVal.str "sesame"),
      ("fab_host", PyVal.str "h1"), ("fab_port", PyVal.int 22)]⟩ 2
    (by decide) (by decide)

/-- C9: evaluation of the fanout strategy at the failing input of the
claim.  Over hosts A and B with the abort policy and an operation that
fails on B, a worker resolves abort and raises SystemExit with status 1
inside its daemon thread (the exited worker results below), yet the
strategy result is finished: the main thread joins all threads and
returns normally, the run continues, the process exit status is
untouched and no disconnect happens first — contradicting the claim
that an abort in one worker terminates the entire run.  The trace also
shows the closure late-binding defect of lines 735-736: both workers
ran against the final host B. -/
theorem fanout_abort_does_not_stop_run :
    fanoutStrategy 5 Option.none "run"
        (fun h => if h = "B" then OpOutcome.fail else OpOutcome.ok)
        [("fab_fail", PyVal.str "abort")] ⟨[]⟩
        [mkConn "A" 22 "u", mkConn "B" 22 "u"] =
      ⟨[.exited ["Error: The run operation failed on B."] 1,
        .exited ["Error: The run operation failed on B."] 1],
       .finished⟩ := by
  decide

end Fabric
